import Mathlib

/-!
Shallow embedding of the jira-test-case-gen repository (src/main.py and
src/app.py) and proofs about its markdown-table parser, its `<br>`-tag
cleaning function, its retry loop around the generative-model call, and
its output-file paths.

Python strings are modelled as Lean `String` (a structure over `List Char`);
the Python string primitives used by the code (`str.strip`, `str.split`,
`str.replace`, `in`) are given explicit executable definitions over the
underlying character lists so that every definition evaluates by `decide`
or `rfl`.
-/

/-- Character class of Python `str.strip()` whitespace (ASCII part). -/
def isPySpace (c : Char) : Bool :=
  c = ' ' || c = '\t' || c = '\n' || c = '\r' || c = '\x0b' || c = '\x0c'

/-- Remove leading and trailing whitespace characters, as Python `str.strip()`. -/
def trimL (l : List Char) : List Char :=
  ((l.dropWhile isPySpace).reverse.dropWhile isPySpace).reverse

/-- Python `s.strip()`. -/
def pyStrip (s : String) : String :=
  ⟨trimL s.data⟩

/-- Split a character list at every occurrence of the separator character,
as Python `str.split(sep)` for a one-character separator: the empty list of
characters yields one empty piece. -/
def splitChar (sep : Char) : List Char → List (List Char)
  | [] => [[]]
  | c :: cs =>
    if c = sep then [] :: splitChar sep cs
    else
      match splitChar sep cs with
      | [] => [[c]]
      | p :: ps => (c :: p) :: ps

/-- Python `s.split(sep)` for a one-character separator. -/
def pySplit (s : String) (sep : Char) : List String :=
  (splitChar sep s.data).map (fun l => ⟨l⟩)

/-- Python `c in s` membership test for a single character. -/
def strContains (s : String) (c : Char) : Bool :=
  s.data.contains c

/-- Worker for `listReplace`: when the skip counter is positive the current
character belongs to an already-matched occurrence of the pattern and is
consumed silently; at skip zero, a fresh match of the (non-empty) pattern
emits the replacement and skips the rest of the match, and otherwise the
character is copied. -/
def replAux (pat rep : List Char) : Nat → List Char → List Char
  | _, [] => []
  | k + 1, _ :: cs => replAux pat rep k cs
  | 0, c :: cs =>
    if pat ≠ [] ∧ pat.isPrefixOf (c :: cs) then
      rep ++ replAux pat rep (pat.length - 1) cs
    else
      c :: replAux pat rep 0 cs

/-- Replace every (non-overlapping, left-to-right) occurrence of the
non-empty pattern, as Python `str.replace` does for non-empty patterns. -/
def listReplace (pat rep l : List Char) : List Char :=
  replAux pat rep 0 l

/-- Python `s.replace(old, new)` for a non-empty `old`. -/
def pyReplace (s old new : String) : String :=
  ⟨listReplace old.data new.data s.data⟩

/-- The pattern occurs as a contiguous substring of the character list. -/
def containsL (l pat : List Char) : Prop :=
  ∃ a b, l = a ++ pat ++ b

/-- A test-case row: the model of a Python `dict` from column name to cell
text, as its insertion-ordered association list with pairwise-distinct keys. -/
abbrev Row := List (String × String)

/-- Python `d[k] = v` on a dict modelled as an insertion-ordered association
list: an existing key keeps its position and gets the new value, a new key
is appended at the end. -/
def dictInsert (d : List (String × String)) (k v : String) : List (String × String) :=
  if d.any (fun p => p.1 == k) then
    d.map (fun p => if p.1 = k then (k, v) else p)
  else
    d ++ [(k, v)]

/-- Python `dict(zip(ks, vs))`: pairs are truncated to the shorter list and
inserted left to right (a repeated key keeps its first position and takes
its last value). -/
def dictOfZip (ks vs : List String) : List (String × String) :=
  (ks.zip vs).foldl (fun d p => dictInsert d p.1 p.2) []

/-- The stripped pipe-containing lines of the input, from
`src/main.py:50`: `[line.strip() for line in md_text.strip().split('\n') if '|' in line]`. -/
def pipeLines (md_text : String) : List String :=
  ((pySplit (pyStrip md_text) '\n').filter (fun line => strContains line '|')).map pyStrip

/-- The non-empty stripped pipe-delimited fields of one line, from
`src/main.py:53` and `src/main.py:56`: `[f.strip() for f in line.split('|') if f.strip()]`. -/
def fieldsOf (line : String) : List String :=
  ((pySplit line '|').map pyStrip).filter (fun f => f ≠ "")

/-- `parse_markdown_table` from `src/main.py:49-60`. -/
def parse_markdown_table (md_text : String) : List Row :=
  let lines := pipeLines md_text
  if lines.length < 2 then []
  else
    let headers := fieldsOf (lines.getD 0 "")
    (lines.drop 2).foldl
      (fun rows line =>
        let fields := fieldsOf line
        if fields.length = headers.length then rows ++ [dictOfZip headers fields]
        else rows)
      []

/-- `clean_html_br_tags_and_strip` from `src/main.py:62-65`. -/
def clean_html_br_tags_and_strip (text : String) : String :=
  if text = "" then text
  else pyStrip (pyReplace (pyReplace (pyReplace text "<br>" "\n") "<br/>" "\n") "<br />" "\n")

/-- The cell values `save_to_excel` (`src/main.py:67-78`) hands to the
spreadsheet writer: every string value of every row is passed through
`clean_html_br_tags_and_strip` (all values in this model are strings). -/
def save_to_excel_cells (parsed_rows : List Row) : List Row :=
  parsed_rows.map (fun row => row.map (fun kv => (kv.1, clean_html_br_tags_and_strip kv.2)))

def MAX_RETRIES : Nat := 3

def RETRY_DELAY : Nat := 5

def OUTPUT_DIR : String := "output"

def FILENAME : String := "jira_test_cases.xlsx"

/-- `os.path.join` for a relative second component. -/
def osPathJoin (a b : String) : String :=
  a ++ "/" ++ b

/-- The file path `save_to_excel` writes to, from `src/main.py:76-77`:
`os.path.join(OUTPUT_DIR, filename.replace(".xlsx", f"_{timestamp}.xlsx"))`. -/
def save_to_excel_path (filename timestamp : String) : String :=
  osPathJoin OUTPUT_DIR (pyReplace filename ".xlsx" ("_" ++ timestamp ++ ".xlsx"))

/-- The fixed file path of the Streamlit Excel export, from
`src/app.py:15` and `src/app.py:193`: `os.path.join(os.getcwd(), "output")`
joined with `FILENAME`. -/
def app_excel_path (cwd : String) : String :=
  osPathJoin (osPathJoin cwd "output") FILENAME

/-- A Jira issue as the scripts read it: key, summary and (possibly absent)
description. -/
structure Issue where
  key : String
  summary : String
  description : Option String

/-- One run of the retry loop `generate_test_cases` (`src/main.py:37-47`,
identically `src/app.py:123-132`). The external model call is an oracle
from the attempt number to `some` response text or `none` for a raised
exception. The result records the returned text, the number of attempts
made, and the trace of sleep durations in order. -/
def generateAux (call : Nat → Option String) : Nat → Nat → String × Nat × List Nat
  | 0, attempt => ("", attempt - 1, [])
  | r + 1, attempt =>
    match call attempt with
    | some t => (t, attempt, [])
    | none =>
      let rest := generateAux call r (attempt + 1)
      (rest.1, rest.2.1, (if attempt < MAX_RETRIES then [RETRY_DELAY] else []) ++ rest.2.2)

/-- `generate_test_cases` (`src/main.py:37-47`, `src/app.py:123-132`):
`for attempt in range(1, MAX_RETRIES + 1)` with the loop body above,
returning `""` when every attempt fails. -/
def generate_test_cases (call : Nat → Option String) : String × Nat × List Nat :=
  generateAux call MAX_RETRIES 1

/-- The per-issue accumulation loop shared by `src/main.py:85-107`
(`__main__`) and `src/app.py:141-164` (`generate_all_test_cases`): each
issue's model response is parsed and every parsed row gets
`row["Jira ID"] = issue.key` and then `row["Story Summary"] = issue.summary`
before being appended. The model response is an oracle from the issue. -/
def processIssues (respond : Issue → String) (issues : List Issue) : List Row :=
  issues.flatMap (fun issue =>
    (parse_markdown_table (respond issue)).map (fun row =>
      dictInsert (dictInsert row "Jira ID" issue.key) "Story Summary" issue.summary))

/-! ### Parser helper lemmas -/

lemma foldl_rows (headers : List String) (L : List String) (acc : List Row) :
    L.foldl
      (fun rows line =>
        if (fieldsOf line).length = headers.length then
          rows ++ [dictOfZip headers (fieldsOf line)]
        else rows) acc
    = acc ++ (L.filter (fun l => (fieldsOf l).length = headers.length)).map
        (fun l => dictOfZip headers (fieldsOf l)) := by
  induction L generalizing acc with
  | nil => simp
  | cons x xs ih =>
    by_cases h : (fieldsOf x).length = headers.length
    · simp [List.foldl_cons, h, ih, List.filter_cons]
    · simp [List.foldl_cons, h, ih, List.filter_cons]

lemma parse_eq_filter_map (md l0 l1 : String) (rest : List String)
    (h : pipeLines md = l0 :: l1 :: rest) :
    parse_markdown_table md
      = (rest.filter (fun l => (fieldsOf l).length = (fieldsOf l0).length)).map
          (fun l => dictOfZip (fieldsOf l0) (fieldsOf l)) := by
  unfold parse_markdown_table
  rw [h]
  have hlen : ¬ (l0 :: l1 :: rest).length < 2 := by
    simp [List.length_cons]
  rw [if_neg hlen]
  simpa using foldl_rows (fieldsOf l0) rest []

lemma parse_short (md : String) (h : (pipeLines md).length < 2) :
    parse_markdown_table md = [] := by
  unfold parse_markdown_table
  rw [if_pos h]

/-! ### Dict helper lemmas -/

lemma dictInsert_of_not_mem (d : List (String × String)) (k v : String)
    (h : d.any (fun p => p.1 == k) = false) :
    dictInsert d k v = d ++ [(k, v)] := by
  unfold dictInsert
  rw [h]
  simp

lemma mem_dictInsert (d : List (String × String)) (k v : String) (kv : String × String)
    (h : kv ∈ dictInsert d k v) : kv ∈ d ∨ kv = (k, v) := by
  unfold dictInsert at h
  by_cases hany : d.any (fun p => p.1 == k)
  · rw [if_pos hany] at h
    obtain ⟨q, hq, hqe⟩ := List.mem_map.mp h
    by_cases hk : q.1 = k
    · right
      rw [if_pos hk] at hqe
      exact hqe.symm
    · left
      rw [if_neg hk] at hqe
      exact hqe ▸ hq
  · rw [if_neg hany] at h
    rcases List.mem_append.mp h with h' | h'
    · exact Or.inl h'
    · exact Or.inr (List.mem_singleton.mp h')

lemma mem_foldl_dictInsert (pairs : List (String × String)) :
    ∀ (d : List (String × String)) (kv : String × String),
      kv ∈ pairs.foldl (fun d p => dictInsert d p.1 p.2) d → kv ∈ d ∨ kv ∈ pairs := by
  induction pairs with
  | nil => intro d kv h; exact Or.inl h
  | cons p ps ih =>
    intro d kv h
    rcases ih (dictInsert d p.1 p.2) kv h with h' | h'
    · rcases mem_dictInsert d p.1 p.2 kv h' with h'' | h''
      · exact Or.inl h''
      · exact Or.inr (by rw [h'']; exact List.mem_cons_self _ _)
    · exact Or.inr (List.mem_cons_of_mem _ h')

lemma mem_dictOfZip (ks vs : List String) (kv : String × String)
    (h : kv ∈ dictOfZip ks vs) : kv ∈ ks.zip vs := by
  rcases mem_foldl_dictInsert (ks.zip vs) [] kv h with h' | h'
  · exact absurd h' (List.not_mem_nil kv)
  · exact h'

lemma foldl_dictInsert_eq_append (pairs : List (String × String)) :
    ∀ (d : List (String × String)),
      (pairs.map Prod.fst).Nodup →
      (∀ p ∈ pairs, ∀ q ∈ d, q.1 ≠ p.1) →
      pairs.foldl (fun d p => dictInsert d p.1 p.2) d = d ++ pairs := by
  induction pairs with
  | nil => intro d _ _; simp
  | cons p ps ih =>
    intro d hnd hdisj
    have hnot : d.any (fun q => q.1 == p.1) = false := by
      rw [List.any_eq_false]
      intro q hq
      simpa using hdisj p (List.mem_cons_self _ _) q hq
    have step : dictInsert d p.1 p.2 = d ++ [p] := by
      rw [dictInsert_of_not_mem d p.1 p.2 hnot]
    rw [List.foldl_cons, step, ih (d ++ [p])]
    · simp
    · exact (List.nodup_cons.mp (by simpa using hnd)).2
    · intro r hr q hq
      rcases List.mem_append.mp hq with h' | h'
      · exact hdisj r (List.mem_cons_of_mem _ hr) q h'
      · have hq' : q = p := List.mem_singleton.mp h'
        have hne : p.1 ∉ ps.map Prod.fst := (List.nodup_cons.mp (by simpa using hnd)).1
        intro hqr
        have hpr : p.1 = r.1 := by rw [← hq']; exact hqr
        exact hne (by rw [hpr]; exact List.mem_map_of_mem Prod.fst hr)

lemma dictOfZip_eq_zip (ks vs : List String) (hnd : ks.Nodup)
    (hlen : ks.length = vs.length) : dictOfZip ks vs = ks.zip vs := by
  unfold dictOfZip
  rw [foldl_dictInsert_eq_append (ks.zip vs) []]
  · simp
  · rw [List.map_fst_zip ks vs (le_of_eq hlen)]
    exact hnd
  · intro p _ q hq
    exact absurd hq (List.not_mem_nil q)

lemma lookup_cons_eqn (k pk pv : String) (ps : List (String × String)) :
    List.lookup k ((pk, pv) :: ps) = cond (k == pk) (some pv) (List.lookup k ps) := rfl

lemma lookup_map_overwrite (k v k' : String) (h : k' ≠ k) (d : List (String × String)) :
    (d.map (fun p => if p.1 = k then (k, v) else p)).lookup k' = d.lookup k' := by
  induction d with
  | nil => rfl
  | cons p ps ih =>
    obtain ⟨pk, pv⟩ := p
    by_cases hp : pk = k
    · have h2 : (k' == pk) = false := beq_eq_false_iff_ne.mpr (fun e => h (e.trans hp))
      have h1 : (k' == k) = false := beq_eq_false_iff_ne.mpr h
      rw [List.map_cons]
      simp only [if_pos hp]
      rw [lookup_cons_eqn, lookup_cons_eqn, h1, h2, cond_false, cond_false, ih]
    · rw [List.map_cons]
      simp only [if_neg hp]
      rw [lookup_cons_eqn, lookup_cons_eqn, ih]

lemma lookup_map_overwrite_self (k v : String) (d : List (String × String))
    (hany : d.any (fun p => p.1 == k) = true) :
    (d.map (fun p => if p.1 = k then (k, v) else p)).lookup k = some v := by
  induction d with
  | nil => simp at hany
  | cons p ps ih =>
    obtain ⟨pk, pv⟩ := p
    by_cases hp : pk = k
    · rw [List.map_cons]
      simp only [if_pos hp]
      rw [lookup_cons_eqn, beq_self_eq_true, cond_true]
    · have htail : ps.any (fun p => p.1 == k) = true := by
        rw [List.any_cons] at hany
        rcases Bool.or_eq_true_iff.mp hany with h' | h'
        · exact absurd (by simpa using h') hp
        · exact h'
      have hk : (k == pk) = false := beq_eq_false_iff_ne.mpr (fun e => hp e.symm)
      rw [List.map_cons]
      simp only [if_neg hp]
      rw [lookup_cons_eqn, hk, cond_false, ih htail]

lemma lookup_append_single_self (k v : String) (d : List (String × String))
    (h : d.any (fun p => p.1 == k) = false) :
    (d ++ [(k, v)]).lookup k = some v := by
  induction d with
  | nil => rw [List.nil_append, lookup_cons_eqn, beq_self_eq_true, cond_true]
  | cons p ps ih =>
    obtain ⟨pk, pv⟩ := p
    rw [List.any_cons] at h
    have h' := Bool.or_eq_false_iff.mp h
    have hk : (k == pk) = false := by
      have h1 : (pk == k) = false := by simpa using h'.1
      exact beq_eq_false_iff_ne.mpr (fun e => (beq_eq_false_iff_ne.mp h1) e.symm)
    rw [List.cons_append, lookup_cons_eqn, hk, cond_false, ih h'.2]

lemma lookup_append_single_ne (k v k' : String) (h : k' ≠ k) (d : List (String × String)) :
    (d ++ [(k, v)]).lookup k' = d.lookup k' := by
  induction d with
  | nil =>
    rw [List.nil_append, lookup_cons_eqn, beq_eq_false_iff_ne.mpr h, cond_false]
  | cons p ps ih =>
    obtain ⟨pk, pv⟩ := p
    rw [List.cons_append, lookup_cons_eqn, lookup_cons_eqn, ih]

lemma lookup_dictInsert_self (d : List (String × String)) (k v : String) :
    (dictInsert d k v).lookup k = some v := by
  unfold dictInsert
  by_cases hany : d.any (fun p => p.1 == k)
  · rw [if_pos hany]
    exact lookup_map_overwrite_self k v d hany
  · rw [if_neg hany]
    exact lookup_append_single_self k v d (by rwa [Bool.not_eq_true] at hany)

lemma lookup_dictInsert_ne (d : List (String × String)) (k v k' : String) (h : k' ≠ k) :
    (dictInsert d k v).lookup k' = d.lookup k' := by
  unfold dictInsert
  by_cases hany : d.any (fun p => p.1 == k)
  · rw [if_pos hany]
    exact lookup_map_overwrite k v k' h d
  · rw [if_neg hany]
    exact lookup_append_single_ne k v k' h d

/-! ### Replace and containment helper lemmas -/

lemma isPrefixOf_eq_true_iff (p : List Char) :
    ∀ l, p.isPrefixOf l = true ↔ ∃ t, l = p ++ t := by
  induction p with
  | nil =>
    intro l
    simp [List.isPrefixOf]
  | cons a as ih =>
    intro l
    cases l with
    | nil =>
      simp [List.isPrefixOf]
    | cons b bs =>
      constructor
      · intro h
        have h' := h
        rw [List.isPrefixOf, Bool.and_eq_true] at h'
        have hab : a = b := by simpa using h'.1
        obtain ⟨t, ht⟩ := (ih bs).mp h'.2
        exact ⟨t, by rw [List.cons_append, ← hab, ht]⟩
      · rintro ⟨t, ht⟩
        rw [List.cons_append] at ht
        injection ht with h1 h2
        rw [List.isPrefixOf, Bool.and_eq_true]
        exact ⟨by simp [h1], (ih bs).mpr ⟨t, h2⟩⟩

lemma replAux_skip (pat rep : List Char) :
    ∀ (l : List Char) (k : Nat), replAux pat rep k l = replAux pat rep 0 (l.drop k) := by
  intro l
  induction l with
  | nil => intro k; cases k <;> rfl
  | cons c cs ih =>
    intro k
    cases k with
    | zero => rfl
    | succ k' =>
      show replAux pat rep k' cs = replAux pat rep 0 ((c :: cs).drop (k' + 1))
      rw [List.drop_succ_cons]
      exact ih k'

lemma replAux_zero_cons (pat rep : List Char) (c : Char) (cs : List Char) :
    replAux pat rep 0 (c :: cs)
      = if pat ≠ [] ∧ pat.isPrefixOf (c :: cs) then
          rep ++ replAux pat rep (pat.length - 1) cs
        else c :: replAux pat rep 0 cs := rfl

lemma listReplace_nil (pat rep : List Char) : listReplace pat rep [] = [] := rfl

lemma listReplace_cons (pat rep : List Char) (c : Char) (cs : List Char) :
    listReplace pat rep (c :: cs)
      = if pat ≠ [] ∧ pat.isPrefixOf (c :: cs) then
          rep ++ listReplace pat rep (cs.drop (pat.length - 1))
        else c :: listReplace pat rep cs := by
  show replAux pat rep 0 (c :: cs) = _
  rw [replAux_zero_cons, replAux_skip pat rep cs (pat.length - 1)]
  rfl

lemma not_containsL_nil (pat : List Char) (h : pat ≠ []) : ¬ containsL [] pat := by
  rintro ⟨a, b, habs⟩
  have h1 := List.append_eq_nil.mp habs.symm
  have h2 := List.append_eq_nil.mp h1.1
  exact h h2.2

lemma containsL_cons_iff (c : Char) (t pat : List Char) :
    containsL (c :: t) pat ↔ (∃ s, c :: t = pat ++ s) ∨ containsL t pat := by
  constructor
  · rintro ⟨a, b, h⟩
    cases a with
    | nil => exact Or.inl ⟨b, by simpa using h⟩
    | cons x a' =>
      rw [List.cons_append] at h
      injection h with h1 h2
      exact Or.inr ⟨a', b, h2⟩
  · rintro (⟨s, h⟩ | ⟨a, b, h⟩)
    · exact ⟨[], s, by simpa using h⟩
    · exact ⟨c :: a, b, by rw [h]; simp [List.append_assoc]⟩

lemma containsL_cons_of (c : Char) (t pat : List Char) (h : containsL t pat) :
    containsL (c :: t) pat :=
  (containsL_cons_iff c t pat).mpr (Or.inr h)

lemma containsL_of_drop (cs : List Char) (k : Nat) (q : List Char)
    (h : containsL (cs.drop k) q) : containsL cs q := by
  obtain ⟨a, b, hab⟩ := h
  refine ⟨cs.take k ++ a, b, ?_⟩
  conv_lhs => rw [← List.take_append_drop k cs]
  rw [hab]
  simp [List.append_assoc]

lemma containsL_append_elim (pat : List Char) (hne : pat ≠ []) :
    ∀ (a b : List Char), (∀ ch ∈ a, ch ∉ pat) → containsL (a ++ b) pat → containsL b pat := by
  intro a
  induction a with
  | nil =>
    intro b _ h
    simpa using h
  | cons x a' ih =>
    intro b hdisj h
    rw [List.cons_append] at h
    rcases (containsL_cons_iff x (a' ++ b) pat).mp h with ⟨s, hs⟩ | h'
    · cases pat with
      | nil => exact absurd rfl hne
      | cons p0 pt =>
        rw [List.cons_append] at hs
        injection hs with h1 _
        exact absurd (by rw [h1]; exact List.mem_cons_self p0 pt)
          (hdisj x (List.mem_cons_self x a'))
    · exact ih b (fun ch hch => hdisj ch (List.mem_cons_of_mem _ hch)) h'

lemma pre_transfer (pat rep : List Char) (hrep : rep ≠ []) :
    ∀ (l s : List Char), s ≠ [] → (∀ c ∈ s, c ∉ rep) →
      (∃ t, listReplace pat rep l = s ++ t) → ∃ t, l = s ++ t := by
  intro l
  induction l with
  | nil =>
    intro s hs _ hex
    obtain ⟨t, ht⟩ := hex
    rw [listReplace_nil] at ht
    have h1 := List.append_eq_nil.mp ht.symm
    exact absurd h1.1 hs
  | cons c cs ih =>
    intro s hs hdisj hex
    obtain ⟨t, ht⟩ := hex
    rw [listReplace_cons] at ht
    by_cases hm : pat ≠ [] ∧ pat.isPrefixOf (c :: cs)
    · rw [if_pos hm] at ht
      cases s with
      | nil => exact absurd rfl hs
      | cons s0 s' =>
        cases rep with
        | nil => exact absurd rfl hrep
        | cons r0 rep' =>
          rw [List.cons_append, List.cons_append] at ht
          injection ht with h1 _
          exact absurd (by rw [← h1]; exact List.mem_cons_self r0 rep')
            (hdisj s0 (List.mem_cons_self s0 s'))
    · rw [if_neg hm] at ht
      cases s with
      | nil => exact absurd rfl hs
      | cons s0 s' =>
        rw [List.cons_append] at ht
        injection ht with h1 h2
        by_cases hs' : s' = []
        · refine ⟨cs, ?_⟩
          rw [hs', List.cons_append, List.nil_append, h1]
        · obtain ⟨t', ht'⟩ :=
            ih s' hs' (fun ch hch => hdisj ch (List.mem_cons_of_mem _ hch)) ⟨t, h2⟩
          exact ⟨t', by rw [List.cons_append, ← ht', h1]⟩

lemma listReplace_of_not_containsL (pat rep : List Char) :
    ∀ l, ¬ containsL l pat → listReplace pat rep l = l := by
  intro l
  induction l with
  | nil => intro _; rfl
  | cons c cs ih =>
    intro h
    rw [listReplace_cons]
    have hm : ¬ (pat ≠ [] ∧ pat.isPrefixOf (c :: cs)) := by
      rintro ⟨_, hpre⟩
      obtain ⟨t, ht⟩ := (isPrefixOf_eq_true_iff pat (c :: cs)).mp hpre
      exact h ⟨[], t, by rw [ht]; simp⟩
    rw [if_neg hm, ih (fun hc => h (containsL_cons_of c cs pat hc))]

lemma not_containsL_listReplace_self (pat rep : List Char) (hpat : pat ≠ [])
    (hrep : rep ≠ []) (hdisj : ∀ c ∈ rep, c ∉ pat) :
    ∀ (n : Nat) (l : List Char), l.length ≤ n →
      ¬ containsL (listReplace pat rep l) pat := by
  intro n
  induction n with
  | zero =>
    intro l hl
    have h0 : l = [] := List.eq_nil_of_length_eq_zero (Nat.le_zero.mp hl)
    rw [h0, listReplace_nil]
    exact not_containsL_nil pat hpat
  | succ n ih =>
    intro l hl
    cases l with
    | nil =>
      rw [listReplace_nil]
      exact not_containsL_nil pat hpat
    | cons c cs =>
      rw [listReplace_cons]
      by_cases hm : pat ≠ [] ∧ pat.isPrefixOf (c :: cs)
      · rw [if_pos hm]
        intro hcont
        have h2 : containsL (listReplace pat rep (cs.drop (pat.length - 1))) pat :=
          containsL_append_elim pat hpat rep _ hdisj hcont
        have hlen : (cs.drop (pat.length - 1)).length ≤ n := by
          rw [List.length_drop]
          have hcs : cs.length ≤ n := by
            rw [List.length_cons] at hl
            omega
          omega
        exact ih _ hlen h2
      · rw [if_neg hm]
        intro hcont
        rcases (containsL_cons_iff _ _ _).mp hcont with ⟨s, hs⟩ | h'
        · cases pat with
          | nil => exact hpat rfl
          | cons p0 pt =>
            rw [List.cons_append] at hs
            injection hs with h1 h2
            by_cases hpt : pt = []
            · apply hm
              refine ⟨hpat, ?_⟩
              rw [hpt, List.isPrefixOf, Bool.and_eq_true]
              exact ⟨by simp [h1], by rw [List.isPrefixOf]⟩
            · have hsub : ∀ ch ∈ pt, ch ∉ rep := fun ch hch hrepm =>
                hdisj ch hrepm (List.mem_cons_of_mem _ hch)
              obtain ⟨t', ht'⟩ := pre_transfer (p0 :: pt) rep hrep cs pt hpt hsub ⟨s, h2⟩
              apply hm
              refine ⟨hpat, ?_⟩
              rw [isPrefixOf_eq_true_iff]
              exact ⟨t', by rw [ht', h1, List.cons_append]⟩
        · have hcs : cs.length ≤ n := by
            rw [List.length_cons] at hl
            omega
          exact ih cs hcs h'

lemma not_containsL_listReplace_other (pat rep q : List Char) (hq : q ≠ [])
    (hrep : rep ≠ []) (hdisj : ∀ c ∈ rep, c ∉ q) :
    ∀ (n : Nat) (l : List Char), l.length ≤ n → ¬ containsL l q →
      ¬ containsL (listReplace pat rep l) q := by
  intro n
  induction n with
  | zero =>
    intro l hl _
    have h0 : l = [] := List.eq_nil_of_length_eq_zero (Nat.le_zero.mp hl)
    rw [h0, listReplace_nil]
    exact not_containsL_nil q hq
  | succ n ih =>
    intro l hl hncont
    cases l with
    | nil =>
      rw [listReplace_nil]
      exact not_containsL_nil q hq
    | cons c cs =>
      rw [listReplace_cons]
      by_cases hm : pat ≠ [] ∧ pat.isPrefixOf (c :: cs)
      · rw [if_pos hm]
        intro hcont
        have h2 : containsL (listReplace pat rep (cs.drop (pat.length - 1))) q :=
          containsL_append_elim q hq rep _ hdisj hcont
        have hlen : (cs.drop (pat.length - 1)).length ≤ n := by
          rw [List.length_drop]
          have hcs : cs.length ≤ n := by
            rw [List.length_cons] at hl
            omega
          omega
        have hnd : ¬ containsL (cs.drop (pat.length - 1)) q := fun hx =>
          hncont (containsL_cons_of c cs q (containsL_of_drop cs (pat.length - 1) q hx))
        exact ih _ hlen hnd h2
      · rw [if_neg hm]
        intro hcont
        rcases (containsL_cons_iff _ _ _).mp hcont with ⟨s, hs⟩ | h'
        · cases q with
          | nil => exact hq rfl
          | cons q0 qt =>
            rw [List.cons_append] at hs
            injection hs with h1 h2
            by_cases hqt : qt = []
            · apply hncont
              refine ⟨[], cs, ?_⟩
              rw [hqt, h1]
              simp
            · have hsub : ∀ ch ∈ qt, ch ∉ rep := fun ch hch hrepm =>
                hdisj ch hrepm (List.mem_cons_of_mem _ hch)
              obtain ⟨t', ht'⟩ := pre_transfer pat rep hrep cs qt hqt hsub ⟨s, h2⟩
              apply hncont
              refine ⟨[], t', ?_⟩
              rw [ht', h1]
              simp
        · have hcs : cs.length ≤ n := by
            rw [List.length_cons] at hl
            omega
          exact ih cs hcs (fun hx => hncont (containsL_cons_of c cs q hx)) h'

/-! ### Strip helper lemmas -/

lemma trimL_pre (l : List Char) :
    ∃ rest, l.dropWhile isPySpace = trimL l ++ rest := by
  refine ⟨((l.dropWhile isPySpace).reverse.takeWhile isPySpace).reverse, ?_⟩
  have h2 := List.takeWhile_append_dropWhile isPySpace (l.dropWhile isPySpace).reverse
  have h3 := congrArg List.reverse h2
  rw [List.reverse_append, List.reverse_reverse] at h3
  exact h3.symm

lemma trimL_decomp (l : List Char) : ∃ a b, l = a ++ trimL l ++ b := by
  obtain ⟨rest, hr⟩ := trimL_pre l
  refine ⟨l.takeWhile isPySpace, rest, ?_⟩
  conv_lhs => rw [← List.takeWhile_append_dropWhile isPySpace l]
  rw [hr, List.append_assoc]

lemma not_containsL_trimL (l pat : List Char) (h : ¬ containsL l pat) :
    ¬ containsL (trimL l) pat := by
  rintro ⟨a, b, hab⟩
  obtain ⟨x, y, hxy⟩ := trimL_decomp l
  refine h ⟨x ++ a, b ++ y, ?_⟩
  rw [hxy, hab]
  simp [List.append_assoc]

lemma dropWhile_head_not (p : Char → Bool) (l : List Char) :
    l.dropWhile p = [] ∨ ∃ c cs, l.dropWhile p = c :: cs ∧ p c = false := by
  induction l with
  | nil => exact Or.inl rfl
  | cons x xs ih =>
    by_cases hx : p x
    · rw [List.dropWhile_cons, if_pos hx]
      exact ih
    · rw [List.dropWhile_cons, if_neg hx]
      exact Or.inr ⟨x, xs, rfl, by simpa using hx⟩

lemma trimL_idem (l : List Char) : trimL (trimL l) = trimL l := by
  have hA := dropWhile_head_not isPySpace l
  have hB := dropWhile_head_not isPySpace (l.dropWhile isPySpace).reverse
  have step1 : (trimL l).dropWhile isPySpace = trimL l := by
    obtain ⟨rest, hr⟩ := trimL_pre l
    cases hT : trimL l with
    | nil => rfl
    | cons c cs =>
      rcases hA with h0 | ⟨c', cs', hc', hpc'⟩
      · rw [h0, hT] at hr
        exact absurd hr.symm (by simp)
      · rw [hc', hT] at hr
        rw [List.cons_append] at hr
        injection hr with h1 _
        rw [List.dropWhile_cons, if_neg (by simp [← h1] at hpc' ⊢; exact hpc')]
  have step2 : (trimL l).reverse.dropWhile isPySpace = (trimL l).reverse := by
    have hrev : (trimL l).reverse = (l.dropWhile isPySpace).reverse.dropWhile isPySpace := by
      show (((l.dropWhile isPySpace).reverse.dropWhile isPySpace).reverse).reverse = _
      rw [List.reverse_reverse]
    rcases hB with h0 | ⟨c, cs, hc, hpc⟩
    · rw [hrev, h0]
      rfl
    · rw [hrev, hc, List.dropWhile_cons, if_neg (by simp [hpc])]
  show (((trimL l).dropWhile isPySpace).reverse.dropWhile isPySpace).reverse = trimL l
  rw [step1, step2, List.reverse_reverse]

lemma pyStrip_idem (s : String) : pyStrip (pyStrip s) = pyStrip s :=
  congrArg String.mk (trimL_idem s.data)

/-! ### Properties of the cleaning function -/

lemma mk_data (s : String) : String.mk s.data = s := rfl

lemma clean_of_ne (s : String) (hs : s ≠ "") :
    clean_html_br_tags_and_strip s
      = pyStrip (pyReplace (pyReplace (pyReplace s "<br>" "\n") "<br/>" "\n") "<br />" "\n") := by
  unfold clean_html_br_tags_and_strip
  rw [if_neg hs]

lemma clean_no_br (s : String) :
    ¬ containsL (clean_html_br_tags_and_strip s).data "<br>".data
    ∧ ¬ containsL (clean_html_br_tags_and_strip s).data "<br/>".data
    ∧ ¬ containsL (clean_html_br_tags_and_strip s).data "<br />".data := by
  by_cases hs : s = ""
  · rw [hs, show clean_html_br_tags_and_strip "" = "" from rfl]
    exact ⟨not_containsL_nil _ (by decide), not_containsL_nil _ (by decide),
      not_containsL_nil _ (by decide)⟩
  · have hc := clean_of_ne s hs
    have hu1 : (pyReplace s "<br>" "\n").data
        = listReplace "<br>".data "\n".data s.data := rfl
    have f1 : ¬ containsL (pyReplace s "<br>" "\n").data "<br>".data := by
      rw [hu1]
      exact not_containsL_listReplace_self "<br>".data "\n".data (by decide) (by decide)
        (by decide) s.data.length s.data le_rfl
    have f2 : ¬ containsL (pyReplace (pyReplace s "<br>" "\n") "<br/>" "\n").data
        "<br/>".data :=
      not_containsL_listReplace_self "<br/>".data "\n".data (by decide) (by decide)
        (by decide) (pyReplace s "<br>" "\n").data.length (pyReplace s "<br>" "\n").data le_rfl
    have f1' : ¬ containsL (pyReplace (pyReplace s "<br>" "\n") "<br/>" "\n").data
        "<br>".data :=
      not_containsL_listReplace_other "<br/>".data "\n".data "<br>".data (by decide)
        (by decide) (by decide) (pyReplace s "<br>" "\n").data.length
        (pyReplace s "<br>" "\n").data le_rfl f1
    have f3 : ¬ containsL
        (pyReplace (pyReplace (pyReplace s "<br>" "\n") "<br/>" "\n") "<br />" "\n").data
        "<br />".data :=
      not_containsL_listReplace_self "<br />".data "\n".data (by decide) (by decide)
        (by decide) (pyReplace (pyReplace s "<br>" "\n") "<br/>" "\n").data.length
        (pyReplace (pyReplace s "<br>" "\n") "<br/>" "\n").data le_rfl
    have f2' : ¬ containsL
        (pyReplace (pyReplace (pyReplace s "<br>" "\n") "<br/>" "\n") "<br />" "\n").data
        "<br/>".data :=
      not_containsL_listReplace_other "<br />".data "\n".data "<br/>".data (by decide)
        (by decide) (by decide) (pyReplace (pyReplace s "<br>" "\n") "<br/>" "\n").data.length
        (pyReplace (pyReplace s "<br>" "\n") "<br/>" "\n").data le_rfl f2
    have f1'' : ¬ containsL
        (pyReplace (pyReplace (pyReplace s "<br>" "\n") "<br/>" "\n") "<br />" "\n").data
        "<br>".data :=
      not_containsL_listReplace_other "<br />".data "\n".data "<br>".data (by decide)
        (by decide) (by decide) (pyReplace (pyReplace s "<br>" "\n") "<br/>" "\n").data.length
        (pyReplace (pyReplace s "<br>" "\n") "<br/>" "\n").data le_rfl f1'
    rw [hc]
    exact ⟨not_containsL_trimL _ _ f1'', not_containsL_trimL _ _ f2',
      not_containsL_trimL _ _ f3⟩

lemma clean_idem (s : String) :
    clean_html_br_tags_and_strip (clean_html_br_tags_and_strip s)
      = clean_html_br_tags_and_strip s := by
  by_cases hs : s = ""
  · rw [hs]
    rfl
  · by_cases ht : clean_html_br_tags_and_strip s = ""
    · rw [ht]
      rfl
    · obtain ⟨g1, g2, g3⟩ := clean_no_br s
      have e1 : pyReplace (clean_html_br_tags_and_strip s) "<br>" "\n"
          = clean_html_br_tags_and_strip s := by
        unfold pyReplace
        rw [listReplace_of_not_containsL _ _ _ g1]
      have e2 : pyReplace (clean_html_br_tags_and_strip s) "<br/>" "\n"
          = clean_html_br_tags_and_strip s := by
        unfold pyReplace
        rw [listReplace_of_not_containsL _ _ _ g2]
      have e3 : pyReplace (clean_html_br_tags_and_strip s) "<br />" "\n"
          = clean_html_br_tags_and_strip s := by
        unfold pyReplace
        rw [listReplace_of_not_containsL _ _ _ g3]
      rw [clean_of_ne _ ht, e1, e2, e3, clean_of_ne s hs]
      exact pyStrip_idem _

/-! ### Claim theorems -/

/-- C10: `clean_html_br_tags_and_strip` is idempotent, and its output never
contains the substrings `<br>`, `<br/>` or `<br />`. -/
theorem C10_clean_idempotent_and_br_free (s : String) :
    clean_html_br_tags_and_strip (clean_html_br_tags_and_strip s)
      = clean_html_br_tags_and_strip s
    ∧ ¬ containsL (clean_html_br_tags_and_strip s).data "<br>".data
    ∧ ¬ containsL (clean_html_br_tags_and_strip s).data "<br/>".data
    ∧ ¬ containsL (clean_html_br_tags_and_strip s).data "<br />".data :=
  ⟨clean_idem s, (clean_no_br s).1, (clean_no_br s).2.1, (clean_no_br s).2.2⟩

/-- C3: an input whose lines include fewer than two pipe-containing lines
parses to the empty list. -/
theorem C3_short_input_empty_result (md : String) (h : (pipeLines md).length < 2) :
    parse_markdown_table md = [] :=
  parse_short md h

/-- C3 witness: a concrete input with no pipe-containing line parses to the
empty list. -/
theorem C3_witness :
    (pipeLines "just text\nno pipes at all").length < 2
    ∧ parse_markdown_table "just text\nno pipes at all" = [] :=
  ⟨by decide, C3_short_input_empty_result "just text\nno pipes at all" (by decide)⟩

/-- C2: with at least two pipe-containing lines, a candidate data line (a
pipe-containing line after the first two) contributes a row exactly when its
count of non-empty stripped fields equals the header field count; mismatched
lines are filtered out and the function is total (no error). -/
theorem C2_row_accepted_iff_count_matches (md l0 l1 : String) (rest : List String)
    (h : pipeLines md = l0 :: l1 :: rest) :
    parse_markdown_table md
      = (rest.filter (fun l => (fieldsOf l).length = (fieldsOf l0).length)).map
          (fun l => dictOfZip (fieldsOf l0) (fieldsOf l)) :=
  parse_eq_filter_map md l0 l1 rest h

/-- C2 witness: on a concrete table with one malformed row, exactly the
matching rows survive. -/
theorem C2_witness :
    parse_markdown_table "| A | B |\n| --- | --- |\n| x | y |\n| zzz |\n| u | v |"
      = (["| x | y |", "| zzz |", "| u | v |"].filter
          (fun l => (fieldsOf l).length = (fieldsOf "| A | B |").length)).map
          (fun l => dictOfZip (fieldsOf "| A | B |") (fieldsOf l)) :=
  C2_row_accepted_iff_count_matches "| A | B |\n| --- | --- |\n| x | y |\n| zzz |\n| u | v |"
    "| A | B |" "| --- | --- |" ["| x | y |", "| zzz |", "| u | v |"] (by decide)

/-- C9: the second pipe-containing line is skipped unconditionally: two
inputs whose pipe-containing lines differ only in that second line parse
identically, and the row count is determined by the lines after it alone. -/
theorem C9_second_pipe_line_ignored (md₁ md₂ l0 s₁ s₂ : String) (rest : List String)
    (h₁ : pipeLines md₁ = l0 :: s₁ :: rest) (h₂ : pipeLines md₂ = l0 :: s₂ :: rest) :
    parse_markdown_table md₁ = parse_markdown_table md₂
    ∧ (parse_markdown_table md₁).length
        = (rest.filter (fun l => (fieldsOf l).length = (fieldsOf l0).length)).length := by
  have e1 := parse_eq_filter_map md₁ l0 s₁ rest h₁
  have e2 := parse_eq_filter_map md₂ l0 s₂ rest h₂
  constructor
  · rw [e1, e2]
  · rw [e1, List.length_map]

/-- C9 witness: replacing the separator line by a well-formed data line
whose field count matches the header count leaves the result unchanged, and
that line contributes no row. -/
theorem C9_witness :
    parse_markdown_table "| A |\n| --- |\n| x |" = parse_markdown_table "| A |\n| y |\n| x |"
    ∧ (parse_markdown_table "| A |\n| --- |\n| x |").length
        = (["| x |"].filter (fun l => (fieldsOf l).length = (fieldsOf "| A |").length)).length :=
  C9_second_pipe_line_ignored "| A |\n| --- |\n| x |" "| A |\n| y |\n| x |"
    "| A |" "| --- |" "| y |" ["| x |"] (by decide) (by decide)

/-- C1 counterexample: with duplicate header names the claim fails. The
input has N = 2 header columns (both named `A`), a separator line, and one
data line with exactly 2 non-empty fields (`x`, `y`), yet the single
returned mapping has only one key, and it pairs `A` with `y`, not with the
positionally corresponding first field `x`. -/
theorem C1_counterexample_duplicate_headers :
    (fieldsOf "| A | A |").length = 2
    ∧ parse_markdown_table "| A | A |\n| --- | --- |\n| x | y |" = [[("A", "y")]]
    ∧ ((parse_markdown_table "| A | A |\n| --- | --- |\n| x | y |").getD 0 []).length = 1
    ∧ ((parse_markdown_table "| A | A |\n| --- | --- |\n| x | y |").getD 0 []).lookup "A"
        = some "y" := by
  decide

/-- C1 amended: for a markdown-table input with N DISTINCT header names, a
separator line, and M data lines each with exactly N non-empty fields, the
parser returns exactly M mappings in input order, each keyed by the header
names with values paired positionally. -/
theorem C1_parse_table_of_distinct_headers (md l0 sep : String) (dataLines : List String)
    (N : Nat) (hpl : pipeLines md = l0 :: sep :: dataLines)
    (hN : (fieldsOf l0).length = N)
    (hnd : (fieldsOf l0).Nodup)
    (hdata : ∀ l ∈ dataLines, (fieldsOf l).length = N) :
    parse_markdown_table md = dataLines.map (fun l => (fieldsOf l0).zip (fieldsOf l))
    ∧ (parse_markdown_table md).length = dataLines.length
    ∧ ∀ row ∈ parse_markdown_table md, row.map Prod.fst = fieldsOf l0 := by
  have e := parse_eq_filter_map md l0 sep dataLines hpl
  have hfilter : dataLines.filter
      (fun l => (fieldsOf l).length = (fieldsOf l0).length) = dataLines := by
    rw [List.filter_eq_self]
    intro l hl
    simp [hdata l hl, hN]
  have e2 : parse_markdown_table md
      = dataLines.map (fun l => (fieldsOf l0).zip (fieldsOf l)) := by
    rw [e, hfilter]
    exact List.map_congr_left
      (fun l hl => dictOfZip_eq_zip _ _ hnd (by rw [hN, hdata l hl]))
  refine ⟨e2, by rw [e2, List.length_map], ?_⟩
  intro row hrow
  rw [e2] at hrow
  obtain ⟨l, hl, hrow⟩ := List.mem_map.mp hrow
  rw [← hrow]
  exact List.map_fst_zip _ _ (le_of_eq (by rw [hN, hdata l hl]))

/-- C1 witness: a concrete two-column table with distinct headers and two
data rows parses to the two positional zips. -/
theorem C1_witness :
    parse_markdown_table "| A | B |\n| --- | --- |\n| x | y |\n| u | v |"
      = ["| x | y |", "| u | v |"].map (fun l => (fieldsOf "| A | B |").zip (fieldsOf l))
    ∧ (parse_markdown_table "| A | B |\n| --- | --- |\n| x | y |\n| u | v |").length = 2 :=
  have h := C1_parse_table_of_distinct_headers
    "| A | B |\n| --- | --- |\n| x | y |\n| u | v |" "| A | B |" "| --- | --- |"
    ["| x | y |", "| u | v |"] 2 (by decide) (by decide) (by decide) (by decide)
  ⟨h.1, h.2.1⟩

lemma pipeLines_two_of_not_short (md : String) (h : ¬ (pipeLines md).length < 2) :
    ∃ l0 l1 rest, pipeLines md = l0 :: l1 :: rest := by
  cases hq : pipeLines md with
  | nil => exact absurd (by rw [hq]; simp) h
  | cons a t =>
    cases t with
    | nil => exact absurd (by rw [hq]; simp) h
    | cons b r => exact ⟨a, b, r, rfl⟩

/-- C8 counterexample: a data line containing an empty interior cell
(`| x || y |` splits into stripped fields `["", "x", "", "y", ""]`, the
middle one an empty cell) is NOT dropped entirely: after the empty fields
are filtered out its two remaining fields match the two headers and the
line still produces a row. -/
theorem C8_counterexample_empty_cell_row_kept :
    (pySplit "| x || y |" '|').map pyStrip = ["", "x", "", "y", ""]
    ∧ parse_markdown_table "| A | B |\n| --- | --- |\n| x || y |"
        = [[("A", "x"), ("B", "y")]] := by
  decide

/-- C8 amended: every value of every mapping returned by
`parse_markdown_table` is non-empty and carries no leading or trailing
whitespace (empty fields are filtered out before the count comparison, so
no row ever holds an empty value); a data line containing an empty cell may
however still produce a row from its remaining non-empty fields. -/
theorem C8_values_nonempty_and_stripped (md : String) (row : Row) (kv : String × String)
    (h1 : row ∈ parse_markdown_table md) (h2 : kv ∈ row) :
    kv.2 ≠ "" ∧ pyStrip kv.2 = kv.2 := by
  by_cases hlen : (pipeLines md).length < 2
  · rw [parse_short md hlen] at h1
    exact absurd h1 (List.not_mem_nil row)
  · obtain ⟨l0, l1, rest, hpl⟩ := pipeLines_two_of_not_short md hlen
    rw [parse_eq_filter_map md l0 l1 rest hpl] at h1
    obtain ⟨l, hl, hrow⟩ := List.mem_map.mp h1
    rw [← hrow] at h2
    obtain ⟨k1, k2⟩ := kv
    have hz := mem_dictOfZip _ _ (k1, k2) h2
    have hv : k2 ∈ fieldsOf l := (List.of_mem_zip hz).2
    unfold fieldsOf at hv
    have hv' := List.mem_filter.mp hv
    have hne : k2 ≠ "" := by simpa using hv'.2
    obtain ⟨f, _, hfe⟩ := List.mem_map.mp hv'.1
    exact ⟨hne, by rw [← hfe]; exact pyStrip_idem f⟩

/-- C8 witness: a value of a concretely parsed row is non-empty and fixed
by stripping. -/
theorem C8_witness : ("x" : String) ≠ "" ∧ pyStrip "x" = "x" :=
  C8_values_nonempty_and_stripped "| A | B |\n| --- | --- |\n| x || y |"
    [("A", "x"), ("B", "y")] ("A", "x") (by decide) (by decide)

/-- C5: every row accumulated by the per-issue loop carries
`Jira ID ↦ issue.key` and `Story Summary ↦ issue.summary` in addition to
the keys produced by the parser (whose lookups are unchanged). -/
theorem C5_rows_augmented_with_issue_keys (respond : Issue → String) (issues : List Issue)
    (row : Row) (h : row ∈ processIssues respond issues) :
    ∃ issue ∈ issues, ∃ r ∈ parse_markdown_table (respond issue),
      row = dictInsert (dictInsert r "Jira ID" issue.key) "Story Summary" issue.summary
      ∧ row.lookup "Jira ID" = some issue.key
      ∧ row.lookup "Story Summary" = some issue.summary
      ∧ ∀ k, k ≠ "Jira ID" → k ≠ "Story Summary" → row.lookup k = r.lookup k := by
  unfold processIssues at h
  obtain ⟨issue, hissue, hrow⟩ := List.mem_flatMap.mp h
  obtain ⟨r, hr, hre⟩ := List.mem_map.mp hrow
  refine ⟨issue, hissue, r, hr, hre.symm, ?_, ?_, ?_⟩
  · rw [← hre, lookup_dictInsert_ne _ _ _ _ (by decide)]
    exact lookup_dictInsert_self _ _ _
  · rw [← hre]
    exact lookup_dictInsert_self _ _ _
  · intro k hk1 hk2
    rw [← hre, lookup_dictInsert_ne _ _ _ _ hk2, lookup_dictInsert_ne _ _ _ _ hk1]

/-- C5 witness: for one concrete issue and response the accumulated row has
the two injected keys and keeps the parsed key. -/
theorem C5_witness :
    ∃ issue ∈ [Issue.mk "JIRA-1" "Login story" none],
      ∃ r ∈ parse_markdown_table
          ((fun _ : Issue => "| A |\n| --- |\n| x |") issue),
        ([("A", "x"), ("Jira ID", "JIRA-1"), ("Story Summary", "Login story")] : Row)
            = dictInsert (dictInsert r "Jira ID" issue.key) "Story Summary" issue.summary
        ∧ ([("A", "x"), ("Jira ID", "JIRA-1"), ("Story Summary", "Login story")] : Row).lookup
            "Jira ID" = some issue.key
        ∧ ([("A", "x"), ("Jira ID", "JIRA-1"), ("Story Summary", "Login story")] : Row).lookup
            "Story Summary" = some issue.summary
        ∧ ∀ k, k ≠ "Jira ID" → k ≠ "Story Summary" →
            ([("A", "x"), ("Jira ID", "JIRA-1"), ("Story Summary", "Login story")] : Row).lookup k
              = r.lookup k :=
  C5_rows_augmented_with_issue_keys (fun _ => "| A |\n| --- |\n| x |")
    [Issue.mk "JIRA-1" "Login story" none]
    [("A", "x"), ("Jira ID", "JIRA-1"), ("Story Summary", "Login story")] (by decide)

lemma generateAux_step (call : Nat → Option String) (r attempt : Nat) :
    generateAux call (r + 1) attempt
      = match call attempt with
        | some u => (u, attempt, [])
        | none =>
          ((generateAux call r (attempt + 1)).1, (generateAux call r (attempt + 1)).2.1,
            (if attempt < MAX_RETRIES then [RETRY_DELAY] else [])
              ++ (generateAux call r (attempt + 1)).2.2) := rfl

/-- C4: if every attempt fails, the retry loop makes exactly `MAX_RETRIES`
(3) attempts, sleeping `RETRY_DELAY` (5 seconds) between consecutive
attempts but not after the last, and returns the empty string; if the first
success is at attempt k, its text is returned after exactly k attempts with
k - 1 sleeps before it. -/
theorem C4_retry_loop (call : Nat → Option String) :
    ((∀ a, 1 ≤ a → a ≤ MAX_RETRIES → call a = none) →
      generate_test_cases call = ("", MAX_RETRIES, [RETRY_DELAY, RETRY_DELAY]))
    ∧ (∀ k t, 1 ≤ k → k ≤ MAX_RETRIES → call k = some t →
        (∀ a, 1 ≤ a → a < k → call a = none) →
        generate_test_cases call = (t, k, List.replicate (k - 1) RETRY_DELAY)) := by
  constructor
  · intro h
    have h1 := h 1 (by decide) (by decide)
    have h2 := h 2 (by decide) (by decide)
    have h3 := h 3 (by decide) (by decide)
    show generateAux call (2 + 1) 1 = ("", MAX_RETRIES, [RETRY_DELAY, RETRY_DELAY])
    rw [generateAux_step, h1]
    show ((generateAux call (1 + 1) 2).1, (generateAux call (1 + 1) 2).2.1,
        [RETRY_DELAY] ++ (generateAux call (1 + 1) 2).2.2)
      = ("", MAX_RETRIES, [RETRY_DELAY, RETRY_DELAY])
    rw [generateAux_step, h2]
    show ((generateAux call (0 + 1) 3).1, (generateAux call (0 + 1) 3).2.1,
        [RETRY_DELAY] ++ ([RETRY_DELAY] ++ (generateAux call (0 + 1) 3).2.2))
      = ("", MAX_RETRIES, [RETRY_DELAY, RETRY_DELAY])
    rw [generateAux_step, h3]
    rfl
  · intro k t hk1 hk3 hcall hnone
    have hk3' : k ≤ 3 := hk3
    interval_cases k
    · show generateAux call (2 + 1) 1 = (t, 1, List.replicate 0 RETRY_DELAY)
      rw [generateAux_step, hcall]
      rfl
    · have h1 := hnone 1 (by decide) (by decide)
      show generateAux call (2 + 1) 1 = (t, 2, List.replicate 1 RETRY_DELAY)
      rw [generateAux_step, h1]
      show ((generateAux call (1 + 1) 2).1, (generateAux call (1 + 1) 2).2.1,
          [RETRY_DELAY] ++ (generateAux call (1 + 1) 2).2.2)
        = (t, 2, List.replicate 1 RETRY_DELAY)
      rw [generateAux_step, hcall]
      rfl
    · have h1 := hnone 1 (by decide) (by decide)
      have h2 := hnone 2 (by decide) (by decide)
      show generateAux call (2 + 1) 1 = (t, 3, List.replicate 2 RETRY_DELAY)
      rw [generateAux_step, h1]
      show ((generateAux call (1 + 1) 2).1, (generateAux call (1 + 1) 2).2.1,
          [RETRY_DELAY] ++ (generateAux call (1 + 1) 2).2.2)
        = (t, 3, List.replicate 2 RETRY_DELAY)
      rw [generateAux_step, h2]
      show ((generateAux call (0 + 1) 3).1, (generateAux call (0 + 1) 3).2.1,
          [RETRY_DELAY] ++ ([RETRY_DELAY] ++ (generateAux call (0 + 1) 3).2.2))
        = (t, 3, List.replicate 2 RETRY_DELAY)
      rw [generateAux_step, hcall]
      rfl

/-- C4 witness: with a call that always fails the loop returns the empty
string after three attempts and two sleeps; with a call that first succeeds
at attempt 2 it returns that text after two attempts and one sleep. -/
theorem C4_witness :
    generate_test_cases (fun _ => none) = ("", MAX_RETRIES, [RETRY_DELAY, RETRY_DELAY])
    ∧ generate_test_cases (fun a => if a = 2 then some "ok" else none)
        = ("ok", 2, List.replicate (2 - 1) RETRY_DELAY) :=
  ⟨(C4_retry_loop (fun _ => none)).1 (fun _ _ _ => rfl),
   (C4_retry_loop (fun a => if a = 2 then some "ok" else none)).2 2 "ok" (by decide)
     (by decide) rfl
     (fun a h1 h2 => by
        have ha : a = 1 := by omega
        subst ha
        rfl)⟩

/-- C6 counterexample: cell values are NOT written verbatim. The value
`a<br>b` parsed from a well-formed table is rewritten by `save_to_excel`
to `a` newline `b` before the rows reach the spreadsheet writer. -/
theorem C6_counterexample_br_value_rewritten :
    parse_markdown_table "| Steps |\n| --- |\n| a<br>b |" = [[("Steps", "a<br>b")]]
    ∧ save_to_excel_cells [[("Steps", "a<br>b")]] = [[("Steps", "a\nb")]]
    ∧ save_to_excel_cells [[("Steps", "a<br>b")]] ≠ [[("Steps", "a<br>b")]] := by
  decide

/-- C6 amended: `save_to_excel` serializes the collected rows in order with
keys and row count unchanged, but passes every string value through
`clean_html_br_tags_and_strip`; rows whose values are already clean (no
`<br>` variants, no surrounding whitespace) are written verbatim. -/
theorem C6_cells_cleaned_in_order (rows : List Row) :
    save_to_excel_cells rows
      = rows.map (fun row => row.map (fun kv => (kv.1, clean_html_br_tags_and_strip kv.2)))
    ∧ (save_to_excel_cells rows).map (fun r => r.map Prod.fst)
        = rows.map (fun r => r.map Prod.fst)
    ∧ ((∀ row ∈ rows, ∀ kv ∈ row, clean_html_br_tags_and_strip kv.2 = kv.2) →
        save_to_excel_cells rows = rows) := by
  refine ⟨rfl, ?_, ?_⟩
  · unfold save_to_excel_cells
    rw [List.map_map]
    apply List.map_congr_left
    intro r _
    simp [List.map_map, Function.comp]
  · intro h
    unfold save_to_excel_cells
    have hall : ∀ row ∈ rows,
        row.map (fun kv => (kv.1, clean_html_br_tags_and_strip kv.2)) = row := by
      intro row hrow
      have hid : ∀ kv ∈ row,
          (fun kv : String × String => (kv.1, clean_html_br_tags_and_strip kv.2)) kv
            = id kv := by
        intro kv hkv
        simp [h row hrow kv hkv]
      rw [List.map_congr_left hid, List.map_id]
    rw [List.map_congr_left (fun r hr => hall r hr)]
    exact List.map_id rows

/-- C6 witness: a row list with already-clean values is written unchanged. -/
theorem C6_witness :
    save_to_excel_cells [[("Steps", "ab"), ("Priority", "High")]]
      = [[("Steps", "ab"), ("Priority", "High")]] :=
  (C6_cells_cleaned_in_order [[("Steps", "ab"), ("Priority", "High")]]).2.2 (by decide)

lemma data_append (a b : String) : (a ++ b).data = a.data ++ b.data := rfl

lemma excel_replace_key (rep : List Char) :
    listReplace ".xlsx".data rep "jira_test_cases.xlsx".data
      = 'j' :: 'i' :: 'r' :: 'a' :: '_' :: 't' :: 'e' :: 's' :: 't' :: '_' ::
        'c' :: 'a' :: 's' :: 'e' :: 's' :: (rep ++ []) := rfl

lemma save_path_eq (t : String) :
    save_to_excel_path FILENAME t = "output/jira_test_cases_" ++ t ++ ".xlsx" := by
  have h1 : (save_to_excel_path FILENAME t).data
      = "output/jira_test_cases_".data ++ (t.data ++ ".xlsx".data) := by
    show ("output" ++ "/" ++ pyReplace FILENAME ".xlsx" ("_" ++ t ++ ".xlsx")).data = _
    rw [data_append, data_append]
    show "output".data ++ "/".data
        ++ listReplace ".xlsx".data ("_" ++ t ++ ".xlsx").data "jira_test_cases.xlsx".data = _
    rw [excel_replace_key, data_append, data_append]
    simp only [List.append_nil, List.append_assoc]
    rfl
  have h2 : ("output/jira_test_cases_" ++ t ++ ".xlsx").data
      = "output/jira_test_cases_".data ++ (t.data ++ ".xlsx".data) := by
    rw [data_append, data_append, List.append_assoc]
  rw [← mk_data (save_to_excel_path FILENAME t),
    ← mk_data ("output/jira_test_cases_" ++ t ++ ".xlsx"), h1, h2]

lemma save_path_inj (t₁ t₂ : String)
    (h : save_to_excel_path FILENAME t₁ = save_to_excel_path FILENAME t₂) : t₁ = t₂ := by
  have h1 := congrArg String.data (((save_path_eq t₁).symm.trans h).trans (save_path_eq t₂))
  rw [data_append, data_append, data_append, data_append] at h1
  have h2 := List.append_cancel_right h1
  have h3 := List.append_cancel_left h2
  rw [← mk_data t₁, ← mk_data t₂, h3]

lemma app_path_eq (cwd : String) : app_excel_path cwd = cwd ++ "/output/" ++ FILENAME := by
  rw [← mk_data (app_excel_path cwd), ← mk_data (cwd ++ "/output/" ++ FILENAME)]
  apply congrArg
  show ((cwd ++ "/" ++ "output") ++ "/" ++ FILENAME).data = (cwd ++ "/output/" ++ FILENAME).data
  simp only [data_append, List.append_assoc]
  rfl

/-- C7 counterexample: `save_to_excel` does not write to the fixed path
`OUTPUT_DIR/FILENAME`: it inserts a timestamp into the filename, so two
runs with different timestamps write two different files and neither is the
fixed path. -/
theorem C7_counterexample_timestamped_path :
    save_to_excel_path FILENAME "2025-01-01_10-00-00"
        ≠ save_to_excel_path FILENAME "2025-01-01_10-00-01"
    ∧ save_to_excel_path FILENAME "2025-01-01_10-00-00" ≠ osPathJoin OUTPUT_DIR FILENAME
    ∧ save_to_excel_path FILENAME "2025-01-01_10-00-00"
        = "output/jira_test_cases_2025-01-01_10-00-00.xlsx" := by
  decide

/-- C7 amended: `save_to_excel` (main.py) writes
`output/jira_test_cases_<timestamp>.xlsx` — injectively in the timestamp,
so distinct timestamps give distinct files — while only the Streamlit Excel
export (app.py) writes the fixed per-run path `<cwd>/output/jira_test_cases.xlsx`. -/
theorem C7_output_paths :
    (∀ t, save_to_excel_path FILENAME t = "output/jira_test_cases_" ++ t ++ ".xlsx")
    ∧ (∀ t₁ t₂, t₁ ≠ t₂ → save_to_excel_path FILENAME t₁ ≠ save_to_excel_path FILENAME t₂)
    ∧ (∀ cwd, app_excel_path cwd = cwd ++ "/output/" ++ FILENAME) :=
  ⟨save_path_eq, fun t₁ t₂ hne h => hne (save_path_inj t₁ t₂ h), app_path_eq⟩

/-- C7 witness: two concrete distinct timestamps yield distinct output
files. -/
theorem C7_witness :
    ("2025-01-01_10-00-00" : String) ≠ "2025-01-02_10-00-00"
    ∧ save_to_excel_path FILENAME "2025-01-01_10-00-00"
        ≠ save_to_excel_path FILENAME "2025-01-02_10-00-00" :=
  ⟨by decide, C7_output_paths.2.1 "2025-01-01_10-00-00" "2025-01-02_10-00-00" (by decide)⟩
